import Mathlib

/-!
Verification development for the blocking and multi-pass matching
orchestration engine (record linkage).  The definitions below are a shallow
embedding of `src/shared/record_linkage_shared/block_functions.py` and
`src/matching/match.py`: rows of the two record sets, the relational
candidate-join backend (Postgres three-valued SQL semantics), the in-memory
blocking index (pandas semantics of `CustomIndex._link_index` and
`find_block`), the pass orchestration of `run_blocking_pass` and the
`__main__` loop of `match.py`, the chunk dispatcher, and the weighting
stage.
-/

namespace Beam

/-- Field value: `none` models SQL NULL / pandas NaN, `some s` a string. -/
abbrev Val := Option String

/-- One record: caller-supplied identifier `id` (column `indv_id`),
stable ordinal `idx`, and the fields as column-name/value pairs. -/
structure Row where
  id : String
  idx : Nat
  fields : List (String × Val)
deriving DecidableEq, Repr

/-- Value of a column of a record; the engine only ever reads columns the
preprocessing produced, a column not present reads as NULL. -/
def Row.f (r : Row) (v : String) : Val :=
  (r.fields.lookup v).getD none

/-- Candidate pair row as materialized by both backends:
`(indv_id_a, indv_id_b, idx_a, idx_b)`. -/
structure Cand where
  ida : String
  idb : String
  idxa : Nat
  idxb : Nat
deriving DecidableEq, Repr

/-- Three-valued SQL boolean (Kleene logic): true, false, unknown. -/
inductive SQLB where
  | T : SQLB
  | F : SQLB
  | U : SQLB
deriving DecidableEq, Repr

namespace SQLB

/-- Kleene conjunction. -/
def and : SQLB → SQLB → SQLB
  | F, _ => F
  | _, F => F
  | T, T => T
  | _, _ => U

/-- Kleene disjunction. -/
def or : SQLB → SQLB → SQLB
  | T, _ => T
  | _, T => T
  | F, F => F
  | _, _ => U

/-- Kleene negation. -/
def not : SQLB → SQLB
  | T => F
  | F => T
  | U => U

/-- Lift a two-valued boolean into SQL logic. -/
def ofBool : Bool → SQLB
  | true => T
  | false => F

end SQLB

/-- SQL equality `a.x = b.y` on possibly NULL values: UNKNOWN when either
side is NULL, otherwise string equality. -/
def sqlEq : Val → Val → SQLB
  | some x, some y => SQLB.ofBool (x = y)
  | _, _ => SQLB.U

/-- SQL inequality `v != ''` : UNKNOWN on NULL, otherwise the comparison. -/
def sqlNeBlank : Val → SQLB
  | some x => SQLB.ofBool (decide (x ≠ ""))
  | none => SQLB.U

/-- SQL `v IS NOT NULL`, never UNKNOWN. -/
def sqlNotNull : Val → SQLB
  | some _ => SQLB.T
  | none => SQLB.F

/-- One conjunct of `get_pass_join_cond`:
`(a.va = b.vb AND a.va != '' AND a.va IS NOT NULL)`. -/
def joinConjunct (a b : Val) : SQLB :=
  SQLB.and (sqlEq a b) (SQLB.and (sqlNeBlank a) (sqlNotNull a))

/-- Conjunction of `joinConjunct` over a list of column pairs. -/
def joinCondList (l : List (String × String)) (ra rb : Row) : SQLB :=
  (l.map (fun v => joinConjunct (ra.f v.1) (rb.f v.2))).foldr SQLB.and SQLB.T

/-- Embedding of `get_pass_join_cond`: the conjunction over the paired
blocking columns (the Python loop indexes both lists in lockstep, which the
callers guarantee have equal length). -/
def get_pass_join_cond (pa pb : List String) (ra rb : Row) : SQLB :=
  joinCondList (pa.zip pb) ra rb

/-- Relational exclusion state: the string `past_join_cond_str` denotes the
disjunction of the join conditions of the already-processed passes; we keep
the list of their blocking-column tuples. The empty list is the empty
string (excludes nothing). -/
abbrev PastRel := List (List String × List String)

/-- Evaluation of the accumulated `past_join_cond_str` on a row pair:
OR over past passes of that pass join condition. -/
def pastCondEval (past : PastRel) (ra rb : Row) : SQLB :=
  (past.map (fun p => get_pass_join_cond p.1 p.2 ra rb)).foldr SQLB.or SQLB.F

/-- Embedding of `exclude_past_join_cond`: the full join condition of a
pass, `cur AND NOT (past)`; with an empty past string no NOT clause is
appended, which coincides with `NOT F = T` here. -/
def exclude_past_join_cond (cur : SQLB) (past : PastRel) (ra rb : Row) : SQLB :=
  SQLB.and cur (SQLB.not (pastCondEval past ra rb))

/-- Embedding of `update_past_join_cond`: OR-append the current pass join
condition onto the running exclusion string. -/
def update_past_join_cond (pa pb : List String) (past : PastRel) : PastRel :=
  past ++ [(pa, pb)]

/-- All ordered row pairs of the cross product a-major, the candidate space
of the inner join. -/
def rowPairs (A B : List Row) : List (Row × Row) :=
  A.flatMap (fun a => B.map (fun b => (a, b)))

/-- Full relational join condition of one pass, dedup conditions included:
`cur AND NOT(past) [AND a.idx < b.idx AND a.indv_id != b.indv_id]`
(the two extra conjuncts appear exactly in dedup mode,
`find_pass_candidates` lines 99-102). -/
def passFullCond (pa pb : List String) (past : PastRel) (dedup : Bool)
    (ra rb : Row) : SQLB :=
  let base := exclude_past_join_cond (get_pass_join_cond pa pb ra rb) past ra rb
  if dedup then
    SQLB.and base (SQLB.and (SQLB.ofBool (decide (ra.idx < rb.idx)))
      (SQLB.ofBool (decide (ra.id ≠ rb.id))))
  else base

/-- Row pairs kept by the relational join of one pass: an inner join keeps
a pair exactly when the ON condition evaluates to TRUE. -/
def passJoinPairs (pa pb : List String) (past : PastRel) (dedup : Bool)
    (A B : List Row) : List (Row × Row) :=
  (rowPairs A B).filter (fun p => passFullCond pa pb past dedup p.1 p.2 = SQLB.T)

/-- Project a row pair onto the materialized candidate-table schema. -/
def toCand (p : Row × Row) : Cand :=
  ⟨p.1.id, p.2.id, p.1.idx, p.2.idx⟩

/-- Embedding of `find_pass_candidates`: materialize the candidate rows of
the pass and OR-extend the exclusion string with the current join
condition (without the dedup conjuncts). -/
def find_pass_candidates (pa pb : List String) (past : PastRel) (dedup : Bool)
    (A B : List Row) : List Cand × PastRel :=
  ((passJoinPairs pa pb past dedup A B).map toCand,
    update_past_join_cond pa pb past)

/-! ## In-memory blocking index (`CustomIndex` / `find_block`) -/

/-- Pandas elementwise equality: comparisons with NaN are False. -/
def pandasEq : Val → Val → Bool
  | some x, some y => x = y
  | _, _ => false

/-- A value is usable as a blocking key when it is neither NaN nor the
empty string. -/
def cleanVal : Val → Bool
  | some s => decide (s ≠ "")
  | none => false

/-- A row survives the pandas preprocessing of one side for a pass exactly
when every blocking column is non-NaN and non-empty: the `data.query`
string `(v != "")` drops empty strings (NaN != "" is True in pandas, so NaN
rows pass the query), and the subsequent `dropna(subset=blocking_keys)` in
`_link_index` drops the NaN rows. -/
def cleanRow (vars : List String) (r : Row) : Bool :=
  vars.all (fun v => cleanVal (r.f v))

/-- Elementwise pandas equality over a list of column pairs. -/
def mergeEqList (l : List (String × String)) (ra rb : Row) : Bool :=
  l.all (fun v => pandasEq (ra.f v.1) (rb.f v.2))

/-- Merge-join key equality of `_link_index`: the inner merge on the
renamed blocking keys pairs two rows when the key columns are elementwise
equal (NaN keys never match, consistent with `pandasEq`). -/
def mergeEq (pa pb : List String) (ra rb : Row) : Bool :=
  mergeEqList (pa.zip pb) ra rb

/-- Removal filter over an explicit list of previously seen tuple pairs. -/
def seenRemoveList (l : List (List String × List String)) (ra rb : Row) : Bool :=
  (l.map (fun sp => mergeEqList (sp.1.zip sp.2) ra rb)).any id

/-- Removal filter of `_link_index` lines 222-231, value level: a merged
pair is removed when, for some previously seen blocking tuple, every
previously seen column pair is elementwise equal (pandas `==`, so NaN
never matches and a shared empty string does match). Whether line 230
reads the bare or the `_x`/`_y`-suffixed column names, the values compared
are the a-side value of the left variable and the b-side value of the
right variable; the lookups can however fail to resolve, and that KeyError
path is modeled by `seenRemoveFails` and `linkIndexPairsE` below. -/
def seenRemove (seenA seenB : List (List String)) (ra rb : Row) : Bool :=
  seenRemoveList (seenA.zip seenB) ra rb

/-- Flattened collection of the previously seen column names of one side
(`left_keep` / `right_keep`; the source builds a set, so only membership
matters). -/
def seenKeep (seen : List (List String)) : List String :=
  seen.flatMap id

/-- The disambiguation branch of `_link_index` lines 227-229 together with
the resolution of the lookups of line 230: when either variable of a seen
column pair collides with the other side's columns, both names are
suffixed (`lv_x`, `rv_y`) — but the merge suffixes only the columns kept
on both sides, so the suffixed lookup resolves exactly when the collision
is two-sided. This predicate is true when the branch is taken and a lookup
fails, raising KeyError (source column names are assumed distinct from the
synthetic `blocking_key_i` / `index_x` / `index_y` names). -/
def suffixBranchFails (leftKeep rightKeep : List String)
    (lv rv : String) : Bool :=
  (rightKeep.contains lv || leftKeep.contains rv) &&
    !(rightKeep.contains lv && leftKeep.contains rv)

/-- KeyError condition of the removal filter of one pass: some previously
seen column pair hits a one-sided collision. Depends only on the seen
lists, not on the data. -/
def seenRemoveFails (seenA seenB : List (List String)) : Bool :=
  (seenA.zip seenB).any (fun sp => (sp.1.zip sp.2).any (fun v =>
    suffixBranchFails (seenKeep seenA) (seenKeep seenB) v.1 v.2))

/-- Row pairs produced by the in-memory link index for one pass: filter
both sides to clean rows, inner-merge on key equality, then drop pairs
matched by a previously seen tuple. The pandas merge emits, up to order,
one output row per key-equal pair of surviving input rows; the claims
compare outputs as multisets, so we fix the a-major product order. -/
def linkIndexPairs (pa pb : List String) (seenA seenB : List (List String))
    (A B : List Row) : List (Row × Row) :=
  (rowPairs (A.filter (cleanRow pa)) (B.filter (cleanRow pb))).filter
    (fun p => mergeEq pa pb p.1 p.2 && !seenRemove seenA seenB p.1 p.2)

/-- Embedding of `find_block` in link mode: run the indexer and append the
blocking tuples of the pass to the seen lists (`prev_vars_a.append`;
`prev_vars_b.append` fires because the b tuple is non-empty whenever the
pass runs). -/
def find_block_link (pa pb : List String) (seenA seenB : List (List String))
    (A B : List Row) : List Cand × (List (List String) × List (List String)) :=
  ((linkIndexPairs pa pb seenA seenB A B).map toCand,
    (seenA ++ [pa], seenB ++ [pb]))

/-- Error-aware `_link_index`: the removal filter aborts with KeyError on a
one-sided seen-column collision (line 230); otherwise it returns exactly
the pairs of `linkIndexPairs`. The failing lookup happens before any
output is produced. -/
def linkIndexPairsE (pa pb : List String) (seenA seenB : List (List String))
    (A B : List Row) : Except String (List (Row × Row)) :=
  if seenRemoveFails seenA seenB then .error "KeyError"
  else .ok (linkIndexPairs pa pb seenA seenB A B)

/-- Error-aware `find_block` in link mode: a KeyError of the removal
filter propagates (`find_block` catches only ZeroDivisionError), aborting
the run before the candidates csv is written and before the seen lists
grow. -/
def find_block_linkE (pa pb : List String)
    (seenA seenB : List (List String)) (A B : List Row) :
    Except String (List Cand × (List (List String) × List (List String))) :=
  match linkIndexPairsE pa pb seenA seenB A B with
  | .error e => .error e
  | .ok pairs => .ok (pairs.map toCand, (seenA ++ [pa], seenB ++ [pb]))

/-- All ordered pairs (x, y) with x strictly before y in the list: the
pairs whose positional codes satisfy `code_x < code_y`. -/
def tailPairs : List Row → List (Row × Row)
  | [] => []
  | a :: rest => rest.map (fun b => (a, b)) ++ tailPairs rest

/-- Modelled from the spec: the dedup dispatch of the external
`recordlinkage` library (`BaseIndexAlgorithm.index` called with a single
frame), absent from src/. Per the spec (§2.5, glossary), dedup mode
matches a dataset against itself excluding self-pairs and mirrored pairs:
of the pairs of `_link_index(df_a, df_a)` only those in one triangle of
the positional code matrix are kept. We keep the pairs whose left
positional code is strictly smaller. The seen list of the a side is used
for both sides (`right_seen is None` in `CustomIndex`). -/
def dedupIndexPairs (pa : List String) (seenA : List (List String))
    (A : List Row) : List (Row × Row) :=
  (tailPairs (A.filter (cleanRow pa))).filter
    (fun p => mergeEq pa pa p.1 p.2 && !seenRemove seenA seenA p.1 p.2)

/-- Embedding of `find_block` in dedup mode: single-frame indexing with the
a-side seen list on both sides; both seen lists still get the appends of
lines 294-296 (the b tuple passed in is non-empty). -/
def find_block_dedup (pa pb : List String) (seenA seenB : List (List String))
    (A : List Row) : List Cand × (List (List String) × List (List String)) :=
  ((dedupIndexPairs pa seenA A).map toCand, (seenA ++ [pa], seenB ++ [pb]))

/-! ## Orchestration: `run_blocking_pass` and the `__main__` pass loop -/

/-- Per-dataset field map (config `vars`): logical variable name to source
column name. -/
abbrev FieldMap := List (String × String)

/-- Dictionary membership and lookup, `v in vars_a` / `vars_a[v]`. -/
def fmLookup (m : FieldMap) (v : String) : Option String :=
  List.lookup v m

/-- Source columns of a pass on one side:
`[vars[v] for v in blocking_vars if v in vars]`. -/
def passCols (m : FieldMap) (bv : List String) : List String :=
  bv.filterMap (fun v => fmLookup m v)

/-- Embedding of `run_blocking_pass` in relational mode, at the row-pair
level of the candidate join (the materialized table projects each pair
through `toCand`).  The three branches mirror the source: an empty
blocking-variable tuple is skipped and the function returns the EMPTY
string (line 469), discarding the accumulated exclusion state; a pass
referencing a variable missing from either field map is skipped returning
the state unchanged (lines 437-441); otherwise `find_pass_candidates` runs
and the state is extended.  `none` means no candidate table was created. -/
def run_blocking_pass_rel (va vb : FieldMap) (bv : List String)
    (past : PastRel) (dedup : Bool) (A B : List Row) :
    Option (List (Row × Row)) × PastRel :=
  if bv.isEmpty then (none, [])
  else if (passCols va bv).length ≠ bv.length ∨
      (passCols vb bv).length ≠ bv.length then (none, past)
  else (some (passJoinPairs (passCols va bv) (passCols vb bv) past dedup A B),
    update_past_join_cond (passCols va bv) (passCols vb bv) past)

/-- Column-level view of a whole plan: the source-column tuple pair of
each pass. -/
def planCols (va vb : FieldMap) (plan : List (List String)) : PastRel :=
  plan.map (fun bv => (passCols va bv, passCols vb bv))

/-- Embedding of the relational branch of the `__main__` pass loop of
`match.py`: each pass runs `run_blocking_pass` threading the exclusion
string; when no candidate table exists the pass is skipped with
`continue` (`none` entry) and the loop moves on. -/
def match_pass_loop_rel (va vb : FieldMap) (dedup : Bool) (A B : List Row) :
    List (List String) → PastRel →
    List (Option (List (Row × Row))) × PastRel
  | [], past => ([], past)
  | bv :: rest, past =>
    let r := run_blocking_pass_rel va vb bv past dedup A B
    let rr := match_pass_loop_rel va vb dedup A B rest r.2
    (r.1 :: rr.1, rr.2)

/-- File-mode run state: the candidate csv files written so far (pass
number paired with file content) and the two seen lists threaded as
`past_join_cond_str`. -/
structure FileModeSt where
  files : List (Nat × List Cand)
  seenA : List (List String)
  seenB : List (List String)
deriving Repr

/-- Embedding of `run_blocking_pass` in file mode.  A non-skipped pass
always writes its candidate csv (`find_block` unconditionally calls
`df.to_csv`), even with zero pairs.  Both skip branches write no file; the
empty-tuple branch of line 469 additionally replaces the seen-list pair
with an empty string, which we do not track because the very next step of
the `__main__` loop aborts the run on the missing file before the
corrupted state can be read. -/
def run_blocking_pass_file (va vb : FieldMap) (passnum : Nat)
    (bv : List String) (dedup : Bool) (A B : List Row) (st : FileModeSt) :
    FileModeSt :=
  if bv.isEmpty then st
  else if (passCols va bv).length ≠ bv.length ∨
      (passCols vb bv).length ≠ bv.length then st
  else if dedup then
    let r := find_block_dedup (passCols va bv) (passCols vb bv)
      st.seenA st.seenB A
    ⟨st.files ++ [(passnum, r.1)], r.2.1, r.2.2⟩
  else
    let r := find_block_link (passCols va bv) (passCols vb bv)
      st.seenA st.seenB A B
    ⟨st.files ++ [(passnum, r.1)], r.2.1, r.2.2⟩

/-- Embedding of the file-based branch of the `__main__` pass loop
(lines 236-259): after `run_blocking_pass`, the loop unconditionally opens
`candidates_..._p{pass}.csv` with `pd.read_csv`; unlike the relational
branch there is no existence check, so a skipped pass aborts the run with
`FileNotFoundError`. -/
def match_loop_file (va vb : FieldMap) (dedup : Bool) (A B : List Row) :
    List (Nat × List String) → FileModeSt →
    Except String (List (List Cand))
  | [], _ => .ok []
  | (n, bv) :: rest, st =>
    let st2 := run_blocking_pass_file va vb n bv dedup A B st
    match (st2.files.map (fun f => (f.1, f.2))).lookup n with
    | some cands =>
      match match_loop_file va vb dedup A B rest st2 with
      | .ok out => .ok (cands :: out)
      | .error e => .error e
    | none => .error "FileNotFoundError"

/-! ## Backend-level plan runners (for backend interchangeability) -/

/-- Run a whole pass plan through the relational backend, threading the
exclusion string from empty, collecting each pass candidate table. -/
def run_plan_rel : List (List String × List String) → PastRel →
    List Row → List Row → List (List Cand)
  | [], _, _, _ => []
  | p :: ps, past, A, B =>
    (find_pass_candidates p.1 p.2 past false A B).1 ::
      run_plan_rel ps (find_pass_candidates p.1 p.2 past false A B).2 A B

/-- Run a whole pass plan through the in-memory backend, threading the
seen lists, collecting each pass candidate file content; a KeyError of the
removal filter aborts the run. -/
def run_plan_memE : List (List String × List String) →
    List (List String) → List (List String) →
    List Row → List Row → Except String (List (List Cand))
  | [], _, _, _, _ => .ok []
  | p :: ps, sa, sb, A, B =>
    match find_block_linkE p.1 p.2 sa sb A B with
    | .error e => .error e
    | .ok r =>
      match run_plan_memE ps r.2.1 r.2.2 A B with
      | .error e => .error e
      | .ok rest => .ok (r.1 :: rest)

/-- No pass of the plan, run from the given seen lists, hits the KeyError
collision of the removal filter. -/
def planNoCollision : List (List String × List String) →
    List (List String) → List (List String) → Bool
  | [], _, _ => true
  | p :: ps, sa, sb =>
    !seenRemoveFails sa sb && planNoCollision ps (sa ++ [p.1]) (sb ++ [p.2])

/-- Row-pair-level view of `run_plan_mem`, for stating disjointness of the
in-memory pass outputs. -/
def run_plan_mem_pairs : List (List String × List String) →
    List (List String) → List (List String) →
    List Row → List Row → List (List (Row × Row))
  | [], _, _, _, _ => []
  | p :: ps, sa, sb, A, B =>
    linkIndexPairs p.1 p.2 sa sb A B ::
      run_plan_mem_pairs ps (sa ++ [p.1]) (sb ++ [p.2]) A B

/-! ## Ground-truth stage (`__main__` lines 103-140) -/

/-- Embedding of `run_ground_truth_ids_passes`: one degenerate pass per
ground-truth identifier, blocking on that single column pair, threading
the exclusion string through `find_pass_candidates`; a ground-truth id
missing from a field map raises `KeyError` (`vars_a[gid]` indexes the
dictionary directly). -/
def run_ground_truth_ids_passes (va vb : FieldMap) (dedup : Bool)
    (A B : List Row) :
    List String → PastRel → Except String (List (List Cand) × PastRel)
  | [], past => .ok ([], past)
  | gid :: rest, past =>
    match fmLookup va gid, fmLookup vb gid with
    | some ga, some gb =>
      let r := find_pass_candidates [ga] [gb] past dedup A B
      match run_ground_truth_ids_passes va vb dedup A B rest r.2 with
      | .ok (outs, p) => .ok (r.1 :: outs, p)
      | .error e => .error e
    | _, _ => .error "KeyError"

/-- Embedding of the ground-truth section of `__main__` (lines 105-116):
when the configured ground-truth identifier list is non-empty the section
starts with `gid_cursor = conn.cursor()`, with no None check, so in
file-based mode (`conn = None`) the run aborts with `AttributeError`
before any ground-truth candidates are generated. `conn` is `true` when a
database connection is configured. -/
def ground_truth_section (conn : Bool) (gids : List String)
    (va vb : FieldMap) (dedup : Bool) (A B : List Row) (past : PastRel) :
    Except String (List (List Cand) × PastRel) :=
  if gids.isEmpty then .ok ([], past)
  else if conn then run_ground_truth_ids_passes va vb dedup A B gids past
  else .error "AttributeError: NoneType object has no attribute cursor"

/-! ## Pass processing order (`__main__` lines 181-195) -/

/-- A pass-name key of `config[blocks_by_pass]` as its list of character
code points. For digit strings we use the digit values themselves: the
code points of the characters 0-9 are consecutive, so comparisons agree. -/
abbrev PassKey := List Nat

/-- Lexicographic comparison of Python `sorted` on strings. -/
def lexLe : PassKey → PassKey → Bool
  | [], _ => true
  | _ :: _, [] => false
  | a :: as_, b :: bs => if a < b then true else if a = b then lexLe as_ bs else false

/-- Embedding of `sorted(config[blocks_by_pass])`: the pass-name keys in
lexicographic string order. -/
def python_sorted (keys : List PassKey) : List PassKey :=
  List.insertionSort (fun a b => lexLe a b = true) keys

/-- Numeric pass index extracted by `int(re.sub(..., pass_name))`: the
positional value of the digit string. -/
def digitsVal : PassKey → Nat
  | [] => 0
  | d :: ds => d * 10 ^ ds.length + digitsVal ds

/-- One processed pass of the run: a ground-truth pre-pass or a numbered
pass. -/
inductive PassTag where
  | gt (g : String)
  | num (k : PassKey)
deriving DecidableEq, Repr

/-- The order in which `__main__` processes passes: the ground-truth
section (lines 105-140) runs before the numbered-pass loop (line 184),
which iterates the lexicographically sorted key list. -/
def match_pass_order (gids : List String) (keys : List PassKey) :
    List PassTag :=
  gids.map PassTag.gt ++ (python_sorted keys).map PassTag.num

/-! ## Parallel match dispatcher (`__main__` lines 212-271) -/

/-- A chunk of candidate rows read from the streaming source. -/
abbrev Chunk := List Cand

/-- Dispatcher state: the pending batch `all_cands` and the batches
submitted to the worker pool so far, in submission order. -/
structure DispatchSt where
  pending : List Chunk
  subs : List (List Chunk)
deriving Repr

/-- One iteration of the chunk loop: a non-empty chunk is appended to
`all_cands` (the file branch tests `chunk.empty`; the relational branch
only yields non-empty chunks); when the batch reaches
`num_processes * 2` it is submitted and `all_cands` is reset. -/
def dispatch_step (N : Nat) (st : DispatchSt) (c : Chunk) : DispatchSt :=
  let p := if c.isEmpty then st.pending else st.pending ++ [c]
  if p.length = 2 * N then ⟨[], st.subs ++ [p]⟩ else ⟨p, st.subs⟩

/-- The chunk loop over the whole candidate stream of the run. -/
def dispatch_run (N : Nat) (chunks : List Chunk) : DispatchSt :=
  chunks.foldl (dispatch_step N) ⟨[], []⟩

/-- The full dispatcher including the end-of-stream flush of lines
262-271: a non-empty trailing batch is submitted synchronously. -/
def dispatch_all (N : Nat) (chunks : List Chunk) : List (List Chunk) :=
  if (dispatch_run N chunks).pending.isEmpty then (dispatch_run N chunks).subs
  else (dispatch_run N chunks).subs ++ [(dispatch_run N chunks).pending]

/-! ## Weighting (`__main__` line 128 and `calculate_weights`) -/

/-- Ground-truth weight of `match.py` line 128:
`10 ** (len(config[blocks_by_pass]) + 1)`. -/
def ground_truth_weight (numPasses : Nat) : Nat := 10 ^ (numPasses + 1)

/-- Modelled from the spec: `match_functions.calculate_weights` is not
under src/ (only its call sites are). Section 4.6 requires
`groundTruth > pass1 > pass2 > ... > passK` with the exact scale a
configuration detail, and section 9 fixes ground truth at
`10^(passCount+1)`; we realize the numbered-pass weight of pass `n` of
`K` as the matching decreasing power `10^(K + 1 - n)`. -/
def calculate_weights (numPasses passIndex : Nat) : Nat :=
  10 ^ (numPasses + 1 - passIndex)

/-! ## Concrete workloads used by witnesses and counterexamples -/

/-- Field map used in small examples: logical `ssn` stored as column
`ssn` on both sides. -/
def exFM : FieldMap := [("ssn", "ssn")]

/-- A record carrying a single `ssn` column. -/
def exRow (ident : String) (i : Nat) (s : String) : Row :=
  ⟨ident, i, [("ssn", some s)]⟩

/-- Side A of the end-to-end example of spec section 8.7:
ssn = [1,1,2,3,4] at ordinals 0-4. -/
def exA : List Row :=
  [exRow "a0" 0 "1", exRow "a1" 1 "1", exRow "a2" 2 "2",
   exRow "a3" 3 "3", exRow "a4" 4 "4"]

/-- Side B of the end-to-end example of spec section 8.7:
ssn = [1,2,2,3,5] at ordinals 0-4. -/
def exB : List Row :=
  [exRow "b0" 0 "1", exRow "b1" 1 "2", exRow "b2" 2 "2",
   exRow "b3" 3 "3", exRow "b4" 4 "5"]

/-- One-pass plan blocking on `ssn` on both sides. -/
def exPlanSsn : List (List String × List String) := [(["ssn"], ["ssn"])]

/-- A record with an empty `v1` and a matching `v2`. -/
def exEmptyA : Row := ⟨"a0", 0, [("v1", some ""), ("v2", some "k")]⟩

/-- B-side twin of `exEmptyA`. -/
def exEmptyB : Row := ⟨"b0", 0, [("v1", some ""), ("v2", some "k")]⟩

/-- Two-pass plan: pass 1 blocks on `v1`, pass 2 on `v2`. -/
def exPlanTwo : List (List String × List String) :=
  [(["v1"], ["v1"]), (["v2"], ["v2"])]

/-- Two distinct records sharing the identifier `X` and the same ssn. -/
def exDup : List Row :=
  [⟨"X", 0, [("ssn", some "5")]⟩, ⟨"X", 1, [("ssn", some "5")]⟩]

/-- Single-record side A sharing ssn 5 with `exB1`. -/
def exA1 : List Row := [⟨"a0", 0, [("ssn", some "5")]⟩]

/-- Single-record side B sharing ssn 5 with `exA1`. -/
def exB1 : List Row := [⟨"b0", 0, [("ssn", some "5")]⟩]

/-- Two records with distinct identifiers sharing an ssn, for dedup. -/
def exDedup : List Row :=
  [⟨"d0", 0, [("ssn", some "7")]⟩, ⟨"d1", 1, [("ssn", some "7")]⟩]

/-- Three singleton chunks for the dispatcher example. -/
def exChunks : List Chunk :=
  [[⟨"a0", "b0", 0, 0⟩], [⟨"a1", "b1", 1, 1⟩], [⟨"a2", "b2", 2, 2⟩]]

/-- Plan with a one-sided seen-column collision at the third pass: the
column c is used on the b side of pass 1 and on the a side of pass 2, so
at pass 3 the seen pair (p, c) takes the suffix branch (c collides) but
the column p is kept on the a side only, and the lookup of p_x fails. -/
def exPlanCol : List (List String × List String) :=
  [(["p"], ["c"]), (["c"], ["q"]), (["z"], ["z"])]

/-- A-side record for the collision example, clean in every column. -/
def exColA : List Row :=
  [⟨"a0", 0, [("p", some "1"), ("c", some "2"), ("z", some "5")]⟩]

/-- B-side record for the collision example, matching on z only. -/
def exColB : List Row :=
  [⟨"b0", 0, [("c", some "9"), ("q", some "8"), ("z", some "5")]⟩]

/-- Field map with two logical variables, ssn and zip. -/
def exFM2 : FieldMap := [("ssn", "ssn"), ("zip", "zip")]

/-- One a-side record whose ssn differs from `exB2` but whose zip agrees. -/
def exA2 : List Row := [⟨"a0", 0, [("ssn", some "1"), ("zip", some "9")]⟩]

/-- One b-side record whose ssn differs from `exA2` but whose zip agrees. -/
def exB2 : List Row := [⟨"b0", 0, [("ssn", some "2"), ("zip", some "9")]⟩]

/-! ## Helper lemmas: three-valued logic -/

theorem SQLB.and_eq_T_iff {a b : SQLB} :
    SQLB.and a b = SQLB.T ↔ a = SQLB.T ∧ b = SQLB.T := by
  cases a <;> cases b <;> simp [SQLB.and]

theorem SQLB.or_eq_F_iff {a b : SQLB} :
    SQLB.or a b = SQLB.F ↔ a = SQLB.F ∧ b = SQLB.F := by
  cases a <;> cases b <;> simp [SQLB.or]

theorem SQLB.not_eq_T_iff {a : SQLB} :
    SQLB.not a = SQLB.T ↔ a = SQLB.F := by
  cases a <;> simp [SQLB.not]

theorem SQLB.ofBool_eq_T_iff {b : Bool} :
    SQLB.ofBool b = SQLB.T ↔ b = true := by
  cases b <;> simp [SQLB.ofBool]

theorem SQLB.and_ofBool {x y : Bool} :
    SQLB.and (SQLB.ofBool x) (SQLB.ofBool y) = SQLB.ofBool (x && y) := by
  cases x <;> cases y <;> rfl

theorem SQLB.or_ofBool {x y : Bool} :
    SQLB.or (SQLB.ofBool x) (SQLB.ofBool y) = SQLB.ofBool (x || y) := by
  cases x <;> cases y <;> rfl

theorem SQLB.not_ofBool {x : Bool} :
    SQLB.not (SQLB.ofBool x) = SQLB.ofBool (!x) := by
  cases x <;> rfl

theorem foldr_and_eq_T {l : List SQLB} :
    l.foldr SQLB.and SQLB.T = SQLB.T ↔ ∀ x ∈ l, x = SQLB.T := by
  induction l with
  | nil => simp
  | cons h t ih => simp [SQLB.and_eq_T_iff, ih]

theorem foldr_or_eq_F {l : List SQLB} :
    l.foldr SQLB.or SQLB.F = SQLB.F ↔ ∀ x ∈ l, x = SQLB.F := by
  induction l with
  | nil => simp
  | cons h t ih => simp [SQLB.or_eq_F_iff, ih]

/-! ## Helper lemmas: join conditions on clean values -/

theorem SQLB.and_F_right {a : SQLB} : SQLB.and a SQLB.F = SQLB.F := by
  cases a <;> rfl

theorem SQLB.and_U_ne_T {a : SQLB} : SQLB.and SQLB.U a ≠ SQLB.T := by
  cases a <;> simp [SQLB.and]

theorem joinConjunct_T {a b : Val} (h : joinConjunct a b = SQLB.T) :
    cleanVal a = true ∧ cleanVal b = true ∧ pandasEq a b = true := by
  match a, b with
  | none, b =>
    simp only [joinConjunct] at h
    rw [show sqlNotNull none = SQLB.F from rfl, SQLB.and_F_right,
      SQLB.and_F_right] at h
    exact absurd h (by decide)
  | some sa, none =>
    simp only [joinConjunct] at h
    rw [show sqlEq (some sa) none = SQLB.U from rfl] at h
    exact absurd h SQLB.and_U_ne_T
  | some sa, some sb =>
    simp only [joinConjunct, sqlEq, sqlNeBlank, sqlNotNull] at h
    cases hd : decide (sa = sb) <;> cases hn : decide (sa ≠ "") <;>
      rw [hd, hn] at h
    · simp [SQLB.ofBool, SQLB.and] at h
    · simp [SQLB.ofBool, SQLB.and] at h
    · simp [SQLB.ofBool, SQLB.and] at h
    · have hsa : sa = sb := of_decide_eq_true hd
      have hne : sa ≠ "" := of_decide_eq_true hn
      refine ⟨by simp [cleanVal, hne], ?_, ?_⟩
      · have : sb ≠ "" := hsa ▸ hne
        simp [cleanVal, this]
      · simp [pandasEq, hsa]

theorem joinConjunct_clean {a b : Val}
    (ha : cleanVal a = true) (hb : cleanVal b = true) :
    joinConjunct a b = SQLB.ofBool (pandasEq a b) := by
  match a, b with
  | some sa, some sb =>
    simp only [cleanVal, decide_eq_true_eq] at ha hb
    simp [joinConjunct, sqlEq, sqlNeBlank, sqlNotNull, pandasEq, ha,
      SQLB.and_ofBool]
    cases decide (sa = sb) <;> rfl

theorem joinCondList_clean {l : List (String × String)} {ra rb : Row}
    (h : ∀ v ∈ l, cleanVal (ra.f v.1) = true ∧ cleanVal (rb.f v.2) = true) :
    joinCondList l ra rb = SQLB.ofBool (mergeEqList l ra rb) := by
  induction l with
  | nil => rfl
  | cons v t ih =>
    have hv := h v (List.mem_cons_self v t)
    have ht := ih (fun w hw => h w (List.mem_cons_of_mem v hw))
    simp only [joinCondList, List.map_cons, List.foldr_cons] at ht ⊢
    rw [joinConjunct_clean hv.1 hv.2, ht, SQLB.and_ofBool]
    simp [mergeEqList]

theorem pastCondEval_clean {past : PastRel} {ra rb : Row}
    (h : ∀ t ∈ past, ∀ v ∈ t.1.zip t.2,
      cleanVal (ra.f v.1) = true ∧ cleanVal (rb.f v.2) = true) :
    pastCondEval past ra rb = SQLB.ofBool (seenRemoveList past ra rb) := by
  induction past with
  | nil => rfl
  | cons t rest ih =>
    have hht := h t (List.mem_cons_self t rest)
    have hrest := ih (fun u hu => h u (List.mem_cons_of_mem t hu))
    simp only [pastCondEval, List.map_cons, List.foldr_cons] at hrest ⊢
    rw [get_pass_join_cond, joinCondList_clean hht, hrest, SQLB.or_ofBool]
    simp [seenRemoveList, mergeEq]

theorem passFullCond_T_parts {pa pb : List String} {past : PastRel}
    {dedup : Bool} {ra rb : Row}
    (h : passFullCond pa pb past dedup ra rb = SQLB.T) :
    get_pass_join_cond pa pb ra rb = SQLB.T ∧
    pastCondEval past ra rb = SQLB.F ∧
    (dedup = true → ra.idx < rb.idx ∧ ra.id ≠ rb.id) := by
  unfold passFullCond exclude_past_join_cond at h
  cases dedup with
  | false =>
    rw [if_neg (by decide : ¬ (false = true))] at h
    rw [SQLB.and_eq_T_iff, SQLB.not_eq_T_iff] at h
    exact ⟨h.1, h.2, by simp⟩
  | true =>
    rw [if_pos rfl] at h
    rw [SQLB.and_eq_T_iff, SQLB.and_eq_T_iff, SQLB.and_eq_T_iff,
      SQLB.not_eq_T_iff, SQLB.ofBool_eq_T_iff, SQLB.ofBool_eq_T_iff] at h
    refine ⟨h.1.1, h.1.2, fun _ => ⟨?_, ?_⟩⟩
    · exact of_decide_eq_true h.2.1
    · exact of_decide_eq_true h.2.2

/-! ## Helper lemmas: lists -/

theorem mem_rowPairs {A B : List Row} {p : Row × Row} :
    p ∈ rowPairs A B ↔ p.1 ∈ A ∧ p.2 ∈ B := by
  cases p with
  | mk a b =>
    simp only [rowPairs, List.mem_flatMap, List.mem_map, Prod.mk.injEq]
    constructor
    · rintro ⟨x, hx, y, hy, rfl, rfl⟩; exact ⟨hx, hy⟩
    · rintro ⟨ha, hb⟩; exact ⟨a, ha, b, hb, rfl, rfl⟩

theorem exists_zip_left {α β : Type} :
    ∀ {l1 : List α} {l2 : List β}, l1.length = l2.length →
      ∀ v ∈ l1, ∃ w, (v, w) ∈ l1.zip l2
  | [], _, _, v, hv => absurd hv (List.not_mem_nil v)
  | _ :: _, [], h, _, _ => by simp at h
  | a :: t1, b :: t2, h, v, hv => by
    rcases List.mem_cons.mp hv with rfl | hv
    · exact ⟨b, List.mem_cons_self _ _⟩
    · obtain ⟨w, hw⟩ :=
        exists_zip_left (by simpa using h) v hv
      exact ⟨w, List.mem_cons_of_mem _ hw⟩

theorem exists_zip_right {α β : Type} :
    ∀ {l1 : List α} {l2 : List β}, l1.length = l2.length →
      ∀ w ∈ l2, ∃ v, (v, w) ∈ l1.zip l2
  | [], [], _, w, hw => absurd hw (List.not_mem_nil w)
  | [], _ :: _, h, _, _ => by simp at h
  | _ :: _, [], _, w, hw => absurd hw (List.not_mem_nil w)
  | a :: t1, b :: t2, h, w, hw => by
    rcases List.mem_cons.mp hw with rfl | hw
    · exact ⟨a, List.mem_cons_self _ _⟩
    · obtain ⟨v, hv⟩ :=
        exists_zip_right (by simpa using h) w hw
      exact ⟨v, List.mem_cons_of_mem _ hv⟩

theorem tailPairs_pairwise {R : Row → Row → Prop} :
    ∀ {l : List Row}, l.Pairwise R → ∀ p ∈ tailPairs l, R p.1 p.2
  | [], _, p, hp => absurd hp (List.not_mem_nil p)
  | a :: rest, h, p, hp => by
    rcases List.mem_append.mp hp with hmem | hmem
    · obtain ⟨b, hb, rfl⟩ := List.mem_map.mp hmem
      exact (List.pairwise_cons.mp h).1 b hb
    · exact tailPairs_pairwise (List.pairwise_cons.mp h).2 p hmem

theorem tailPairs_mem :
    ∀ {l : List Row} {p : Row × Row}, p ∈ tailPairs l → p.1 ∈ l ∧ p.2 ∈ l
  | [], p, hp => absurd hp (List.not_mem_nil p)
  | a :: rest, p, hp => by
    rcases List.mem_append.mp hp with hmem | hmem
    · obtain ⟨b, hb, rfl⟩ := List.mem_map.mp hmem
      exact ⟨List.mem_cons_self _ _, List.mem_cons_of_mem _ hb⟩
    · have h := tailPairs_mem hmem
      exact ⟨List.mem_cons_of_mem _ h.1, List.mem_cons_of_mem _ h.2⟩

/-! ## Helper lemmas: lexicographic order and digit values -/

theorem lexLe_total : ∀ a b : PassKey, lexLe a b = true ∨ lexLe b a = true
  | [], _ => Or.inl rfl
  | _ :: _, [] => Or.inr rfl
  | x :: xs, y :: ys => by
    by_cases hxy : x < y
    · left; unfold lexLe; rw [if_pos hxy]
    · by_cases hyx : y < x
      · right; unfold lexLe; rw [if_pos hyx]
      · have hxe : x = y := by omega
        subst hxe
        rcases lexLe_total xs ys with ih | ih
        · left; unfold lexLe; rw [if_neg hxy, if_pos rfl]; exact ih
        · right; unfold lexLe; rw [if_neg hyx, if_pos rfl]; exact ih

theorem lexLe_trans : ∀ a b c : PassKey,
    lexLe a b = true → lexLe b c = true → lexLe a c = true
  | [], _, _, _, _ => rfl
  | _ :: _, [], _, hab, _ => by simp [lexLe] at hab
  | _ :: _, _ :: _, [], _, hbc => by simp [lexLe] at hbc
  | x :: xs, y :: ys, z :: zs, hab, hbc => by
    unfold lexLe at hab hbc ⊢
    by_cases h1 : x < y
    · by_cases h2 : y < z
      · rw [if_pos (by omega : x < z)]
      · rw [if_neg h2] at hbc
        by_cases h3 : y = z
        · rw [if_pos (by omega : x < z)]
        · rw [if_neg h3] at hbc; exact absurd hbc (by decide)
    · rw [if_neg h1] at hab
      by_cases h3 : x = y
      · rw [if_pos h3] at hab
        by_cases h2 : y < z
        · rw [if_pos (by omega : x < z)]
        · rw [if_neg h2] at hbc
          by_cases h4 : y = z
          · rw [if_pos h4] at hbc
            rw [if_neg (by omega : ¬ x < z), if_pos (h3.trans h4)]
            exact lexLe_trans xs ys zs hab hbc
          · rw [if_neg h4] at hbc; exact absurd hbc (by decide)
      · rw [if_neg h3] at hab; exact absurd hab (by decide)

instance : IsTotal PassKey (fun a b => lexLe a b = true) := ⟨lexLe_total⟩

instance : IsTrans PassKey (fun a b => lexLe a b = true) :=
  ⟨fun a b c => lexLe_trans a b c⟩

theorem digitsVal_lt_pow {l : PassKey} (h : ∀ d ∈ l, d < 10) :
    digitsVal l < 10 ^ l.length := by
  induction l with
  | nil => simp [digitsVal]
  | cons d ds ih =>
    have hd := h d (List.mem_cons_self d ds)
    have hds := ih (fun x hx => h x (List.mem_cons_of_mem d hx))
    simp only [digitsVal, List.length_cons]
    calc d * 10 ^ ds.length + digitsVal ds
        < d * 10 ^ ds.length + 10 ^ ds.length := Nat.add_lt_add_left hds _
      _ = (d + 1) * 10 ^ ds.length := (Nat.succ_mul d _).symm
      _ ≤ 10 * 10 ^ ds.length := Nat.mul_le_mul_right _ (by omega)
      _ = 10 ^ (ds.length + 1) := by rw [pow_succ, Nat.mul_comm]

theorem digitsVal_lt_of_lexLe :
    ∀ {a b : PassKey}, a.length = b.length → (∀ d ∈ a, d < 10) →
      lexLe a b = true → a ≠ b → digitsVal a < digitsVal b
  | [], [], _, _, _, hne => absurd rfl hne
  | [], _ :: _, hlen, _, _, _ => by simp at hlen
  | _ :: _, [], hlen, _, _, _ => by simp at hlen
  | x :: xs, y :: ys, hlen, hdig, hle, hne => by
    have hlen2 : xs.length = ys.length := by simpa using hlen
    have hxs : digitsVal xs < 10 ^ xs.length :=
      digitsVal_lt_pow (fun d hd => hdig d (List.mem_cons_of_mem x hd))
    unfold lexLe at hle
    by_cases h1 : x < y
    · simp only [digitsVal]
      rw [hlen2] at hxs ⊢
      calc x * 10 ^ ys.length + digitsVal xs
          < x * 10 ^ ys.length + 10 ^ ys.length := Nat.add_lt_add_left hxs _
        _ = (x + 1) * 10 ^ ys.length := (Nat.succ_mul x _).symm
        _ ≤ y * 10 ^ ys.length := Nat.mul_le_mul_right _ (by omega)
        _ ≤ y * 10 ^ ys.length + digitsVal ys := Nat.le_add_right _ _
    · rw [if_neg h1] at hle
      by_cases h2 : x = y
      · rw [if_pos h2] at hle
        subst h2
        have hne2 : xs ≠ ys := fun hh => hne (by rw [hh])
        have ih := digitsVal_lt_of_lexLe hlen2
          (fun d hd => hdig d (List.mem_cons_of_mem x hd)) hle hne2
        simp only [digitsVal]
        rw [hlen2]
        exact Nat.add_lt_add_left ih _
      · rw [if_neg h2] at hle
        exact absurd hle (by decide)

/-! ## Helper lemmas: backend equivalence on clean data -/

theorem decide_ofBool_eq_T {x : Bool} :
    decide (SQLB.ofBool x = SQLB.T) = x := by
  cases x <;> rfl

theorem passFullCond_clean {pa pb : List String}
    {seenA seenB : List (List String)} {ra rb : Row}
    (hcurA : cleanRow pa ra = true) (hcurB : cleanRow pb rb = true)
    (hseenA : ∀ t ∈ seenA, cleanRow t ra = true)
    (hseenB : ∀ t ∈ seenB, cleanRow t rb = true) :
    passFullCond pa pb (seenA.zip seenB) false ra rb =
      SQLB.ofBool (mergeEq pa pb ra rb && !seenRemove seenA seenB ra rb) := by
  unfold passFullCond
  rw [if_neg (by decide : ¬ (false = true))]
  unfold exclude_past_join_cond
  have hA := List.all_eq_true.mp hcurA
  have hB := List.all_eq_true.mp hcurB
  have hjoin : get_pass_join_cond pa pb ra rb =
      SQLB.ofBool (mergeEq pa pb ra rb) := by
    rw [get_pass_join_cond, mergeEq]
    apply joinCondList_clean
    rintro ⟨v1, v2⟩ hv
    have hm := List.of_mem_zip hv
    exact ⟨hA _ hm.1, hB _ hm.2⟩
  have hpast : pastCondEval (seenA.zip seenB) ra rb =
      SQLB.ofBool (seenRemoveList (seenA.zip seenB) ra rb) := by
    apply pastCondEval_clean
    rintro ⟨t1, t2⟩ ht ⟨v1, v2⟩ hv
    have hmt := List.of_mem_zip ht
    have hAa := List.all_eq_true.mp (hseenA _ hmt.1)
    have hBb := List.all_eq_true.mp (hseenB _ hmt.2)
    have hmv := List.of_mem_zip hv
    exact ⟨hAa _ hmv.1, hBb _ hmv.2⟩
  rw [hjoin, hpast, SQLB.not_ofBool, SQLB.and_ofBool, seenRemove]

theorem pass_equiv {pa pb : List String} {seenA seenB : List (List String)}
    {A B : List Row}
    (hA1 : ∀ r ∈ A, cleanRow pa r = true)
    (hB1 : ∀ r ∈ B, cleanRow pb r = true)
    (hA2 : ∀ r ∈ A, ∀ t ∈ seenA, cleanRow t r = true)
    (hB2 : ∀ r ∈ B, ∀ t ∈ seenB, cleanRow t r = true) :
    (find_pass_candidates pa pb (seenA.zip seenB) false A B).1 =
      (find_block_link pa pb seenA seenB A B).1 := by
  unfold find_pass_candidates find_block_link
  simp only
  congr 1
  unfold passJoinPairs linkIndexPairs
  rw [List.filter_eq_self.mpr hA1, List.filter_eq_self.mpr hB1]
  apply List.filter_congr
  intro p hp
  have hmem := mem_rowPairs.mp hp
  rw [passFullCond_clean (hA1 _ hmem.1) (hB1 _ hmem.2)
    (fun t ht => hA2 _ hmem.1 t ht) (fun t ht => hB2 _ hmem.2 t ht)]
  exact decide_ofBool_eq_T

theorem run_plan_equivE {A B : List Row} :
    ∀ (plan : List (List String × List String))
      (seenA seenB : List (List String)),
      seenA.length = seenB.length →
      (∀ r ∈ A, ∀ t ∈ seenA, cleanRow t r = true) →
      (∀ r ∈ B, ∀ t ∈ seenB, cleanRow t r = true) →
      (∀ r ∈ A, ∀ pr ∈ plan, cleanRow pr.1 r = true) →
      (∀ r ∈ B, ∀ pr ∈ plan, cleanRow pr.2 r = true) →
      planNoCollision plan seenA seenB = true →
      run_plan_memE plan seenA seenB A B =
        .ok (run_plan_rel plan (seenA.zip seenB) A B)
  | [], _, _, _, _, _, _, _, _ => rfl
  | pr :: ps, seenA, seenB, hlen, hA2, hB2, hplA, hplB, hcol => by
    unfold planNoCollision at hcol
    simp only [Bool.and_eq_true, Bool.not_eq_true'] at hcol
    have hA1 : ∀ r ∈ A, cleanRow pr.1 r = true :=
      fun r hr => hplA r hr pr (List.mem_cons_self pr ps)
    have hB1 : ∀ r ∈ B, cleanRow pr.2 r = true :=
      fun r hr => hplB r hr pr (List.mem_cons_self pr ps)
    have hhead := pass_equiv hA1 hB1 hA2 hB2
    have hstate : (find_pass_candidates pr.1 pr.2 (seenA.zip seenB)
        false A B).2 = (seenA ++ [pr.1]).zip (seenB ++ [pr.2]) := by
      unfold find_pass_candidates update_past_join_cond
      rw [List.zip_append hlen]
      rfl
    have hlinkE : linkIndexPairsE pr.1 pr.2 seenA seenB A B =
        .ok (linkIndexPairs pr.1 pr.2 seenA seenB A B) := by
      unfold linkIndexPairsE
      rw [if_neg (by simp [hcol.1])]
    have hA2' : ∀ r ∈ A, ∀ t ∈ seenA ++ [pr.1], cleanRow t r = true := by
      intro r hr t ht
      rcases List.mem_append.mp ht with h | h
      · exact hA2 r hr t h
      · rw [List.mem_singleton.mp h]
        exact hA1 r hr
    have hB2' : ∀ r ∈ B, ∀ t ∈ seenB ++ [pr.2], cleanRow t r = true := by
      intro r hr t ht
      rcases List.mem_append.mp ht with h | h
      · exact hB2 r hr t h
      · rw [List.mem_singleton.mp h]
        exact hB1 r hr
    have ih := run_plan_equivE ps (seenA ++ [pr.1]) (seenB ++ [pr.2])
      (by simp [hlen]) hA2' hB2'
      (fun r hr q hq => hplA r hr q (List.mem_cons_of_mem pr hq))
      (fun r hr q hq => hplB r hr q (List.mem_cons_of_mem pr hq))
      hcol.2
    simp only [run_plan_memE, find_block_linkE, hlinkE]
    rw [ih]
    simp only [run_plan_rel]
    rw [hhead, hstate]
    rfl

/-! ## Helper lemmas: orchestration -/

theorem run_blocking_pass_rel_run (va vb : FieldMap) (bv : List String)
    (past : PastRel) (dedup : Bool) (A B : List Row)
    (hne : bv ≠ []) (hla : (passCols va bv).length = bv.length)
    (hlb : (passCols vb bv).length = bv.length) :
    run_blocking_pass_rel va vb bv past dedup A B =
      (some (passJoinPairs (passCols va bv) (passCols vb bv) past dedup A B),
        past ++ [(passCols va bv, passCols vb bv)]) := by
  unfold run_blocking_pass_rel
  rw [if_neg (by simp [List.isEmpty_iff, hne]), if_neg (by simp [hla, hlb])]
  rfl

theorem match_pass_loop_rel_getD (va vb : FieldMap) (dedup : Bool)
    (A B : List Row) :
    ∀ (plan : List (List String)) (past0 : PastRel),
      (∀ bv ∈ plan, bv ≠ []) →
      (∀ bv ∈ plan, (passCols va bv).length = bv.length ∧
        (passCols vb bv).length = bv.length) →
      ∀ j, j < plan.length →
      ((match_pass_loop_rel va vb dedup A B plan past0).1.getD j none) =
        some (passJoinPairs (passCols va (plan.getD j []))
          (passCols vb (plan.getD j []))
          (past0 ++ planCols va vb (plan.take j)) dedup A B)
  | [], _, _, _, j, hj => by simp at hj
  | bv :: rest, past0, hne, hmap, j, hj => by
    have hr := run_blocking_pass_rel_run va vb bv past0 dedup A B
      (hne bv (List.mem_cons_self bv rest))
      (hmap bv (List.mem_cons_self bv rest)).1
      (hmap bv (List.mem_cons_self bv rest)).2
    cases j with
    | zero =>
      simp only [match_pass_loop_rel, hr, List.getD_cons_zero,
        List.take_zero]
      rw [show planCols va vb [] = [] from rfl, List.append_nil]
    | succ n =>
      have hn : n < rest.length := by simpa using hj
      simp only [match_pass_loop_rel, hr, List.getD_cons_succ]
      rw [match_pass_loop_rel_getD va vb dedup A B rest _
        (fun x hx => hne x (List.mem_cons_of_mem bv hx))
        (fun x hx => hmap x (List.mem_cons_of_mem bv hx)) n hn]
      rw [List.take_succ_cons,
        show planCols va vb (bv :: rest.take n) =
          (passCols va bv, passCols vb bv) :: planCols va vb (rest.take n)
          from rfl]
      simp [List.append_assoc]

theorem seenRemoveList_eq_false {l : List (List String × List String)}
    {ra rb : Row} :
    seenRemoveList l ra rb = false ↔
    ∀ sp ∈ l, mergeEqList (sp.1.zip sp.2) ra rb = false := by
  unfold seenRemoveList
  rw [List.any_eq_false]
  constructor
  · intro h sp hsp
    have := h _ (List.mem_map_of_mem _ hsp)
    simpa using this
  · intro h x hx
    obtain ⟨sp, hsp, rfl⟩ := List.mem_map.mp hx
    simpa using h sp hsp

theorem linkIndexPairs_parts {pa pb : List String}
    {seenA seenB : List (List String)} {A B : List Row} {p : Row × Row}
    (hp : p ∈ linkIndexPairs pa pb seenA seenB A B) :
    mergeEq pa pb p.1 p.2 = true ∧
    seenRemove seenA seenB p.1 p.2 = false := by
  have h := (List.mem_filter.mp hp).2
  simp only [Bool.and_eq_true, Bool.not_eq_true'] at h
  exact h

theorem run_plan_mem_pairs_getD (A B : List Row) :
    ∀ (plan2 : List (List String × List String))
      (sa sb : List (List String)) (j : Nat), j < plan2.length →
      (run_plan_mem_pairs plan2 sa sb A B).getD j [] =
        linkIndexPairs (plan2.getD j ([], [])).1 (plan2.getD j ([], [])).2
          (sa ++ (plan2.take j).map (fun pr => pr.1))
          (sb ++ (plan2.take j).map (fun pr => pr.2)) A B
  | [], _, _, j, hj => by simp at hj
  | pr :: rest, sa, sb, j, hj => by
    cases j with
    | zero =>
      simp [run_plan_mem_pairs, List.getD_cons_zero]
    | succ n =>
      have hn : n < rest.length := by simpa using hj
      simp only [run_plan_mem_pairs, List.getD_cons_succ]
      rw [run_plan_mem_pairs_getD A B rest _ _ n hn]
      simp [List.take_succ_cons, List.append_assoc]

/-! ## Helper lemmas: dispatcher -/

theorem dispatch_step_inv {N : Nat} (hN : 0 < N) {st : DispatchSt} {c : Chunk}
    (hp : st.pending.length < 2 * N)
    (hs : ∀ b ∈ st.subs, b.length = 2 * N) :
    (dispatch_step N st c).pending.length < 2 * N ∧
    ∀ b ∈ (dispatch_step N st c).subs, b.length = 2 * N := by
  unfold dispatch_step
  set p := if c.isEmpty then st.pending else st.pending ++ [c] with hpdef
  have hlen : p.length ≤ st.pending.length + 1 := by
    rw [hpdef]; split
    · omega
    · rw [List.length_append]; simp
  by_cases ht : p.length = 2 * N
  · rw [if_pos ht]
    refine ⟨by simp; omega, fun b hb => ?_⟩
    rcases List.mem_append.mp hb with h1 | h1
    · exact hs b h1
    · rw [List.mem_singleton.mp h1]; exact ht
  · rw [if_neg ht]
    exact ⟨by simp; omega, hs⟩

theorem dispatch_foldl_inv (N : Nat) (hN : 0 < N) :
    ∀ (chunks : List Chunk) (st : DispatchSt),
      st.pending.length < 2 * N → (∀ b ∈ st.subs, b.length = 2 * N) →
      ((chunks.foldl (dispatch_step N) st).pending.length < 2 * N ∧
        ∀ b ∈ (chunks.foldl (dispatch_step N) st).subs, b.length = 2 * N)
  | [], _, hp, hs => ⟨hp, hs⟩
  | c :: cs, st, hp, hs => by
    rw [List.foldl_cons]
    have h := dispatch_step_inv (c := c) hN hp hs
    exact dispatch_foldl_inv N hN cs _ h.1 h.2

theorem dispatch_step_flatten {N : Nat} (st : DispatchSt) (c : Chunk) :
    (dispatch_step N st c).subs.flatten ++ (dispatch_step N st c).pending =
      (st.subs.flatten ++ st.pending) ++ (if c.isEmpty then [] else [c]) := by
  unfold dispatch_step
  set p := if c.isEmpty then st.pending else st.pending ++ [c] with hpdef
  have hflat : st.subs.flatten ++ p =
      (st.subs.flatten ++ st.pending) ++ (if c.isEmpty then [] else [c]) := by
    rw [hpdef]; split <;> simp
  by_cases ht : p.length = 2 * N
  · rw [if_pos ht]; simpa using hflat
  · rw [if_neg ht]; simpa using hflat

theorem dispatch_foldl_flatten (N : Nat) :
    ∀ (chunks : List Chunk) (st : DispatchSt),
      (chunks.foldl (dispatch_step N) st).subs.flatten ++
        (chunks.foldl (dispatch_step N) st).pending =
      (st.subs.flatten ++ st.pending) ++ chunks.filter (fun c => !c.isEmpty)
  | [], st => by simp
  | c :: cs, st => by
    rw [List.foldl_cons, dispatch_foldl_flatten N cs _, dispatch_step_flatten,
      List.filter_cons]
    by_cases hc : c.isEmpty <;> simp [hc]

/-! ## Claim theorems -/

/-- C3 counterexample: in dedup mode the in-memory backend produces the
candidate pair (X, X, 0, 1) from two distinct records sharing the
identifier X, violating identifier_a ≠ identifier_b; only the relational
backend adds the `a.indv_id != b.indv_id` conjunct. -/
theorem claim_C3_counterexample :
    (⟨"X", "X", 0, 1⟩ : Cand) ∈ (find_block_dedup ["ssn"] ["ssn"] [] [] exDup).1 := by
  decide

/-- C3 amended: in dedup mode every relational-backend pair satisfies
ordinal_a < ordinal_b and identifier_a ≠ identifier_b; every in-memory
pair satisfies ordinal_a < ordinal_b (for a frame whose ordinals ascend
with position); the in-memory backend does not enforce
identifier_a ≠ identifier_b. -/
theorem claim_C3 (pa pb : List String) (past : PastRel) (A B : List Row)
    (seenA : List (List String)) (D : List Row)
    (hD : D.Pairwise (fun r s => r.idx < s.idx)) :
    (∀ p ∈ passJoinPairs pa pb past true A B,
        p.1.idx < p.2.idx ∧ p.1.id ≠ p.2.id) ∧
    (∀ p ∈ dedupIndexPairs pa seenA D, p.1.idx < p.2.idx) := by
  constructor
  · intro p hp
    have hc := (List.mem_filter.mp hp).2
    have hparts := passFullCond_T_parts (of_decide_eq_true hc)
    exact hparts.2.2 rfl
  · intro p hp
    have hmem := (List.mem_filter.mp hp).1
    exact tailPairs_pairwise (hD.filter _) p hmem

/-- C3 witness: the relational dedup pass on two distinct rows sharing an
ssn produces their pair with ascending ordinals and distinct ids. -/
theorem claim_C3_witness :
    (0 : Nat) < 1 ∧ ("d0" : String) ≠ "d1" :=
  (claim_C3 ["ssn"] ["ssn"] [] exDedup exDedup [] exDedup (by decide)).1
    (⟨"d0", 0, [("ssn", some "7")]⟩, ⟨"d1", 1, [("ssn", some "7")]⟩)
    (by decide)

/-- C4: the empty-blocking-tuple skip branch of `run_blocking_pass`
(line 469) returns the empty string instead of `past_join_cond_str`: after
the skipped pass the new exclusion state excludes nothing, although the
prior state excluded the ssn join; the exclusion state is rolled back. -/
theorem claim_C4 :
    run_blocking_pass_rel exFM exFM [] [(["ssn"], ["ssn"])] false exA1 exB1 =
      (none, []) ∧
    pastCondEval [(["ssn"], ["ssn"])] ⟨"a0", 0, [("ssn", some "5")]⟩
      ⟨"b0", 0, [("ssn", some "5")]⟩ = SQLB.T ∧
    pastCondEval [] ⟨"a0", 0, [("ssn", some "5")]⟩
      ⟨"b0", 0, [("ssn", some "5")]⟩ = SQLB.F := by
  refine ⟨?_, ?_, ?_⟩ <;> rfl

/-- C5: with the blocking variable ssn absent from the b-side field map,
the file-based mode aborts the run with `FileNotFoundError` at the first
pass (the `__main__` file branch reads the candidates csv without an
existence check), while the relational mode skips both passes, continues,
and leaves the exclusion state unchanged. -/
theorem claim_C5 :
    match_loop_file exFM [] false exA1 exB1 [(1, ["ssn"]), (2, ["ssn"])]
      ⟨[], [], []⟩ = .error "FileNotFoundError" ∧
    (match_pass_loop_rel exFM [] false exA1 exB1 [["ssn"], ["ssn"]] []).1 =
      [none, none] ∧
    (match_pass_loop_rel exFM [] false exA1 exB1 [["ssn"], ["ssn"]] []).2 = [] := by
  refine ⟨?_, ?_, ?_⟩ <;> rfl

/-- C8: with a positive worker count and non-empty chunks, the pending
batch stays strictly below 2N between iterations, every batch submitted
inside the loop has exactly 2N chunks (submission happens exactly on
reaching the threshold), every submitted batch including the trailing
flush is non-empty and at most 2N chunks, and the concatenation of all
submitted batches is exactly the chunk stream: every chunk is scored
exactly once. Quantifying over all chunk lists covers every prefix of a
stream, hence every intermediate state of the loop. -/
theorem claim_C8 (N : Nat) (chunks : List Chunk) (hN : 0 < N)
    (hne : ∀ c ∈ chunks, c ≠ []) :
    ((dispatch_run N chunks).pending.length < 2 * N) ∧
    (∀ b ∈ (dispatch_run N chunks).subs, b.length = 2 * N) ∧
    (∀ b ∈ dispatch_all N chunks, b.length ≤ 2 * N ∧ b ≠ []) ∧
    ((dispatch_all N chunks).flatten = chunks) := by
  have hinv := dispatch_foldl_inv N hN chunks ⟨[], []⟩
    (by simp; omega) (by simp)
  have hflat := dispatch_foldl_flatten N chunks ⟨[], []⟩
  have hfilter : chunks.filter (fun c => !c.isEmpty) = chunks := by
    rw [List.filter_eq_self]
    intro c hc
    simpa using hne c hc
  rw [hfilter] at hflat
  have hinv2 : (dispatch_run N chunks).pending.length < 2 * N ∧
      ∀ b ∈ (dispatch_run N chunks).subs, b.length = 2 * N := by
    rw [dispatch_run]; exact ⟨hinv.1, hinv.2⟩
  have hflat2 : (dispatch_run N chunks).subs.flatten ++
      (dispatch_run N chunks).pending = chunks := by
    rw [dispatch_run]; simpa using hflat
  refine ⟨hinv2.1, hinv2.2, ?_, ?_⟩
  · intro b hb
    unfold dispatch_all at hb
    by_cases hp : (dispatch_run N chunks).pending.isEmpty
    · rw [if_pos hp] at hb
      have := hinv2.2 b hb
      exact ⟨le_of_eq this, List.ne_nil_of_length_pos (by omega)⟩
    · rw [if_neg hp] at hb
      rcases List.mem_append.mp hb with h1 | h1
      · have := hinv2.2 b h1
        exact ⟨le_of_eq this, List.ne_nil_of_length_pos (by omega)⟩
      · rw [List.mem_singleton.mp h1]
        exact ⟨le_of_lt hinv2.1, by simpa [List.isEmpty_iff] using hp⟩
  · unfold dispatch_all
    by_cases hp : (dispatch_run N chunks).pending.isEmpty
    · rw [if_pos hp]
      have hnil : (dispatch_run N chunks).pending = [] :=
        List.isEmpty_iff.mp hp
      rw [hnil, List.append_nil] at hflat2
      exact hflat2
    · rw [if_neg hp, List.flatten_append]
      simpa using hflat2

/-- C8 witness: worker count 1, three singleton chunks: the loop submits
one batch of two chunks, the flush submits the remaining chunk, and the
submitted batches concatenate back to the stream. -/
theorem claim_C8_witness :
    (dispatch_all 1 exChunks).flatten = exChunks ∧
    (dispatch_run 1 exChunks).pending.length < 2 * 1 :=
  ⟨(claim_C8 1 exChunks (by decide) (by decide)).2.2.2,
   (claim_C8 1 exChunks (by decide) (by decide)).1⟩

/-- C9: the ground-truth weight strictly exceeds the weight of every
numbered pass, and the numbered-pass weights strictly decrease in the
pass index (the numbered-pass formula is modelled from the spec, see
`calculate_weights`). -/
theorem claim_C9 (K n : Nat) (h1 : 1 ≤ n) (h2 : n ≤ K) :
    ground_truth_weight K > calculate_weights K n ∧
    ∀ m, 1 ≤ m → m < n → calculate_weights K m > calculate_weights K n := by
  have hbase : (1 : Nat) < 10 := by decide
  simp only [ground_truth_weight, calculate_weights, gt_iff_lt]
  constructor
  · exact Nat.pow_lt_pow_right hbase (by omega)
  · intro m hm hmn
    exact Nat.pow_lt_pow_right hbase (by omega)

/-- C9 witness: with two numbered passes, ground truth outweighs pass 2
and pass 1 outweighs pass 2. -/
theorem claim_C9_witness :
    ground_truth_weight 2 > calculate_weights 2 2 ∧
    calculate_weights 2 1 > calculate_weights 2 2 :=
  ⟨(claim_C9 2 2 (by decide) (by decide)).1,
   (claim_C9 2 2 (by decide) (by decide)).2 1 (by decide) (by decide)⟩

/-- C10: with a non-empty ground-truth identifier list and no database
connection (file-based mode), the ground-truth section fails immediately
(`conn.cursor()` on None) before generating any ground-truth
candidates. -/
theorem claim_C10 (gids : List String) (va vb : FieldMap) (dedup : Bool)
    (A B : List Row) (past : PastRel) (h : gids ≠ []) :
    ground_truth_section false gids va vb dedup A B past =
      .error "AttributeError: NoneType object has no attribute cursor" := by
  cases gids with
  | nil => exact absurd rfl h
  | cons g gs => rfl

/-- C10 witness: one configured ground-truth id in file-based mode aborts
the run with the attribute error. -/
theorem claim_C10_witness :
    ground_truth_section false ["person_id"] exFM exFM false exA1 exB1 [] =
      .error "AttributeError: NoneType object has no attribute cursor" :=
  claim_C10 ["person_id"] exFM exFM false exA1 exB1 [] (by decide)

/-- C6: a record with an empty or NULL value in any blocking variable of a
pass appears in none of that pass candidate pairs — in the relational
join (the non-empty and non-NULL conjuncts, with equality carrying them to
the b side), in the in-memory link index (query plus dropna filtering),
and in the in-memory dedup index. -/
theorem claim_C6 (pa pb : List String) (hlen : pa.length = pb.length)
    (past : PastRel) (dedup : Bool) (A B : List Row)
    (seenA seenB : List (List String)) (D : List Row) :
    (∀ p ∈ passJoinPairs pa pb past dedup A B,
        (∀ v ∈ pa, cleanVal (p.1.f v) = true) ∧
        (∀ w ∈ pb, cleanVal (p.2.f w) = true)) ∧
    (∀ p ∈ linkIndexPairs pa pb seenA seenB A B,
        cleanRow pa p.1 = true ∧ cleanRow pb p.2 = true) ∧
    (∀ p ∈ dedupIndexPairs pa seenA D,
        cleanRow pa p.1 = true ∧ cleanRow pa p.2 = true) := by
  refine ⟨?_, ?_, ?_⟩
  · intro p hp
    have hc := of_decide_eq_true (List.mem_filter.mp hp).2
    have hjoin := (passFullCond_T_parts hc).1
    rw [get_pass_join_cond] at hjoin
    unfold joinCondList at hjoin
    have hall := foldr_and_eq_T.mp hjoin
    constructor
    · intro v hv
      obtain ⟨w, hw⟩ := exists_zip_left hlen v hv
      have hT := hall _ (List.mem_map_of_mem _ hw)
      exact (joinConjunct_T hT).1
    · intro w hw
      obtain ⟨v, hv⟩ := exists_zip_right hlen w hw
      have hT := hall _ (List.mem_map_of_mem _ hv)
      exact (joinConjunct_T hT).2.1
  · intro p hp
    have hmem := mem_rowPairs.mp (List.mem_filter.mp hp).1
    exact ⟨(List.mem_filter.mp hmem.1).2, (List.mem_filter.mp hmem.2).2⟩
  · intro p hp
    have hmem := tailPairs_mem (List.mem_filter.mp hp).1
    exact ⟨(List.mem_filter.mp hmem.1).2, (List.mem_filter.mp hmem.2).2⟩

/-- C6 witness: the pair (a0, b0) produced by the ssn pass on the spec
section 8.7 data has a usable (non-empty, non-NULL) ssn on the a side. -/
theorem claim_C6_witness :
    cleanVal ((exRow "a0" 0 "1").f "ssn") = true :=
  ((claim_C6 ["ssn"] ["ssn"] rfl [] false exA exB [] [] exA).1
    (exRow "a0" 0 "1", exRow "b0" 0 "1") (by decide)).1 "ssn"
    (by decide)

/-- C7 counterexample: with pass keys 10 and 2, Python `sorted` orders the
key 10 before the key 2 (string order), so the numbered passes are not
processed in ascending order of their numeric pass index (10 before 2). -/
theorem claim_C7_counterexample :
    match_pass_order [] [[1, 0], [2]] =
      [PassTag.num [1, 0], PassTag.num [2]] ∧
    digitsVal [1, 0] = 10 ∧ digitsVal [2] = 2 ∧ ¬ (10 : Nat) < 2 := by
  refine ⟨?_, ?_, ?_, ?_⟩ <;> decide

/-- C7 amended: every numbered pass is processed exactly once, after all
ground-truth passes, in ascending lexicographic order of the pass-name
keys; when all keys are digit strings of equal length this order is
strictly ascending in the numeric pass index. -/
theorem claim_C7 (gids : List String) (keys : List PassKey) (L : Nat)
    (hnd : keys.Nodup)
    (hlen : ∀ k ∈ keys, k.length = L)
    (hdig : ∀ k ∈ keys, ∀ d ∈ k, d < 10) :
    (∀ k ∈ keys, (match_pass_order gids keys).count (PassTag.num k) = 1) ∧
    (match_pass_order gids keys =
      gids.map PassTag.gt ++ (python_sorted keys).map PassTag.num) ∧
    ((python_sorted keys).map digitsVal).Pairwise (· < ·) := by
  have hperm : (python_sorted keys).Perm keys :=
    List.perm_insertionSort _ keys
  refine ⟨?_, rfl, ?_⟩
  · intro k hk
    rw [match_pass_order, List.count_append]
    have h1 : (gids.map PassTag.gt).count (PassTag.num k) = 0 := by
      rw [List.count_eq_zero]
      intro hmem
      obtain ⟨g, _, hg⟩ := List.mem_map.mp hmem
      exact PassTag.noConfusion hg
    have hinj : Function.Injective PassTag.num := by
      intro a b h
      injection h with h2
    have hmapperm : ((python_sorted keys).map PassTag.num).Perm
        (keys.map PassTag.num) := hperm.map _
    rw [h1, hmapperm.count_eq, Nat.zero_add]
    exact List.count_eq_one_of_mem (hnd.map hinj)
      (List.mem_map_of_mem _ hk)
  · have hsort : List.Sorted (fun a b => lexLe a b = true)
        (python_sorted keys) := List.sorted_insertionSort _ keys
    have hnd2 : (python_sorted keys).Nodup := hperm.nodup_iff.mpr hnd
    have hpw := List.Pairwise.and hsort hnd2
    rw [List.pairwise_map]
    refine hpw.imp_of_mem ?_
    intro a b ha hb hab
    have hka := hperm.mem_iff.mp ha
    have hkb := hperm.mem_iff.mp hb
    exact digitsVal_lt_of_lexLe ((hlen a hka).trans (hlen b hkb).symm)
      (hdig a hka) hab.1 hab.2

/-- C7 witness: one ground-truth pass and single-digit keys 1, 2: each key
is processed exactly once and the numeric order of the sorted keys is
strictly ascending. -/
theorem claim_C7_witness :
    (match_pass_order ["gt1"] [[1], [2]]).count (PassTag.num [1]) = 1 ∧
    ((python_sorted [[1], [2]]).map digitsVal).Pairwise (· < ·) :=
  ⟨(claim_C7 ["gt1"] [[1], [2]] 1 (by decide) (by decide) (by decide)).1
      [1] (by decide),
   (claim_C7 ["gt1"] [[1], [2]] 1 (by decide) (by decide) (by decide)).2.2⟩

/-- C2 counterexample: with the plan [ssn], [], [ssn], the empty second
pass resets the exclusion string (line 469), so the third pass reproduces
exactly the pair of the first pass: that pair satisfies the first pass
blocking-equality predicate and the pass outputs are not disjoint. -/
theorem claim_C2_counterexample :
    (match_pass_loop_rel exFM exFM false exA1 exB1 [["ssn"], [], ["ssn"]]
        []).1 =
      [some [(⟨"a0", 0, [("ssn", some "5")]⟩, ⟨"b0", 0, [("ssn", some "5")]⟩)],
       none,
       some [(⟨"a0", 0, [("ssn", some "5")]⟩,
         ⟨"b0", 0, [("ssn", some "5")]⟩)]] ∧
    get_pass_join_cond ["ssn"] ["ssn"] ⟨"a0", 0, [("ssn", some "5")]⟩
      ⟨"b0", 0, [("ssn", some "5")]⟩ = SQLB.T :=
  ⟨rfl, rfl⟩

/-- C2 amended: provided every pass of the plan has a non-empty
blocking-variable tuple with all variables present in both field maps, no
pair produced by a later pass satisfies the blocking-equality predicate of
an earlier pass, and the pass outputs are pairwise disjoint — in the
relational orchestration; the in-memory backend run is pairwise disjoint
as well. -/
theorem claim_C2 (va vb : FieldMap) (dedup : Bool) (A B : List Row)
    (plan : List (List String))
    (hne : ∀ bv ∈ plan, bv ≠ [])
    (hmap : ∀ bv ∈ plan, (passCols va bv).length = bv.length ∧
      (passCols vb bv).length = bv.length)
    (plan2 : List (List String × List String)) :
    (∀ i j, i < j → j < plan.length →
      ∀ p ∈ (((match_pass_loop_rel va vb dedup A B plan []).1.getD j
          none).getD []),
        get_pass_join_cond (passCols va (plan.getD i []))
          (passCols vb (plan.getD i [])) p.1 p.2 ≠ SQLB.T ∧
        p ∉ (((match_pass_loop_rel va vb dedup A B plan []).1.getD i
          none).getD [])) ∧
    (∀ i j, i < j → j < plan2.length →
      ∀ p ∈ ((run_plan_mem_pairs plan2 [] [] A B).getD j []),
        p ∉ ((run_plan_mem_pairs plan2 [] [] A B).getD i [])) := by
  constructor
  · intro i j hij hj p hp
    have hi : i < plan.length := Nat.lt_trans hij hj
    rw [match_pass_loop_rel_getD va vb dedup A B plan [] hne hmap j hj] at hp
    simp only [Option.getD_some] at hp
    have hfull := of_decide_eq_true (List.mem_filter.mp hp).2
    have hpastF := (passFullCond_T_parts hfull).2.1
    rw [List.nil_append] at hpastF
    unfold pastCondEval at hpastF
    have hallF := foldr_or_eq_F.mp hpastF
    have hi' : i < (plan.take j).length := by
      simp only [List.length_take]
      omega
    have hmemtake : (passCols va (plan.getD i []),
        passCols vb (plan.getD i [])) ∈ planCols va vb (plan.take j) := by
      have hm : (plan.take j).get ⟨i, hi'⟩ ∈ plan.take j :=
        List.get_mem _ _ hi'
      have hmm := List.mem_map_of_mem
        (fun bv => (passCols va bv, passCols vb bv)) hm
      rw [show (plan.take j).get ⟨i, hi'⟩ = (plan.take j)[i] from rfl,
        List.getElem_take] at hmm
      rw [List.getD_eq_getElem plan [] hi]
      exact hmm
    have hFi := hallF _ (List.mem_map_of_mem
      (fun t => get_pass_join_cond t.1 t.2 p.1 p.2) hmemtake)
    simp only at hFi
    constructor
    · intro hT
      rw [hT] at hFi
      exact SQLB.noConfusion hFi
    · intro hpi
      rw [match_pass_loop_rel_getD va vb dedup A B plan [] hne hmap i hi]
        at hpi
      simp only [Option.getD_some] at hpi
      have hfulli := of_decide_eq_true (List.mem_filter.mp hpi).2
      have hjoin_i := (passFullCond_T_parts hfulli).1
      rw [hjoin_i] at hFi
      exact SQLB.noConfusion hFi
  · intro i j hij hj p hp
    have hi : i < plan2.length := Nat.lt_trans hij hj
    rw [run_plan_mem_pairs_getD A B plan2 [] [] j hj] at hp
    simp only [List.nil_append] at hp
    have hparts := linkIndexPairs_parts hp
    have hrem := hparts.2
    rw [seenRemove, List.zip_map'] at hrem
    simp only [Prod.mk.eta, List.map_id'] at hrem
    have hallF := seenRemoveList_eq_false.mp hrem
    have hi' : i < (plan2.take j).length := by
      simp only [List.length_take]
      omega
    have hmemtake : plan2.getD i ([], []) ∈ plan2.take j := by
      have hm : (plan2.take j).get ⟨i, hi'⟩ ∈ plan2.take j :=
        List.get_mem _ _ hi'
      rw [show (plan2.take j).get ⟨i, hi'⟩ = (plan2.take j)[i] from rfl,
        List.getElem_take] at hm
      rw [List.getD_eq_getElem plan2 ([], []) hi]
      exact hm
    have hFi := hallF _ hmemtake
    intro hpi
    rw [run_plan_mem_pairs_getD A B plan2 [] [] i hi] at hpi
    have hpartsi := linkIndexPairs_parts hpi
    have := hpartsi.1
    rw [mergeEq] at this
    rw [this] at hFi
    exact Bool.noConfusion hFi

/-- C2 witness: with the plan [ssn], [zip] on records agreeing on zip but
not ssn, the pair produced by the second pass does not satisfy the first
pass predicate and is not among the first pass candidates. -/
theorem claim_C2_witness :
    get_pass_join_cond (passCols exFM2 ["ssn"]) (passCols exFM2 ["ssn"])
      (⟨"a0", 0, [("ssn", some "1"), ("zip", some "9")]⟩ : Row)
      (⟨"b0", 0, [("ssn", some "2"), ("zip", some "9")]⟩ : Row) ≠ SQLB.T ∧
    ((⟨"a0", 0, [("ssn", some "1"), ("zip", some "9")]⟩ : Row),
      (⟨"b0", 0, [("ssn", some "2"), ("zip", some "9")]⟩ : Row)) ∉
      (((match_pass_loop_rel exFM2 exFM2 false exA2 exB2 [["ssn"], ["zip"]]
        []).1.getD 0 none).getD []) :=
  (claim_C2 exFM2 exFM2 false exA2 exB2 [["ssn"], ["zip"]] (by decide)
      (by decide) []).1 0 1 (by decide) (by decide)
    (⟨"a0", 0, [("ssn", some "1"), ("zip", some "9")]⟩,
      ⟨"b0", 0, [("ssn", some "2"), ("zip", some "9")]⟩) (by decide)

/-- C1 counterexample: two divergences between the backends. First, empty
values: both records carry the empty string in v1 and matching non-empty
v2; pass 2 keeps the pair relationally (the past conjunct `a.v1 != ''` is
false, so NOT(past) is true) while the in-memory filter removes it (the
shared empty v1 values compare equal under pandas ==): one candidate
against zero. Second, column collisions: on clean data with the plan
(p, c), (c, q), (z, z), the third in-memory pass aborts with KeyError (the
seen pair (p, c) takes the one-sided suffix branch and looks up the absent
column p_x) while the relational backend produces the z pair. -/
theorem claim_C1_counterexample :
    run_plan_rel exPlanTwo [] [exEmptyA] [exEmptyB] =
      [[], [⟨"a0", "b0", 0, 0⟩]] ∧
    run_plan_memE exPlanTwo [] [] [exEmptyA] [exEmptyB] = .ok [[], []] ∧
    run_plan_rel exPlanCol [] exColA exColB =
      [[], [], [⟨"a0", "b0", 0, 0⟩]] ∧
    run_plan_memE exPlanCol [] [] exColA exColB = .error "KeyError" :=
  ⟨rfl, rfl, rfl, rfl⟩

/-- C1 amended: over datasets in which every blocking variable referenced
by the plan is non-NULL and non-empty on every record, and for plans whose
previously-seen column pairs never hit the one-sided suffix collision
(which makes the in-memory removal filter abort with KeyError), the
in-memory backend run succeeds and produces exactly the per-pass candidate
tables of the relational backend (equal as lists in cross-product order,
hence equal multisets of (identifier_a, identifier_b) tuples). -/
theorem claim_C1 (plan : List (List String × List String)) (A B : List Row)
    (hA : ∀ r ∈ A, ∀ pr ∈ plan, cleanRow pr.1 r = true)
    (hB : ∀ r ∈ B, ∀ pr ∈ plan, cleanRow pr.2 r = true)
    (hcol : planNoCollision plan [] [] = true) :
    run_plan_memE plan [] [] A B = .ok (run_plan_rel plan [] A B) :=
  run_plan_equivE plan [] [] rfl (by simp) (by simp) hA hB hcol

/-- C1 witness: the end-to-end example of spec section 8.7 (ssn pass on
sides [1,1,2,3,4] and [1,2,2,3,5]): the in-memory run succeeds with the
relational output, the table of exactly the five expected pairs. -/
theorem claim_C1_witness :
    run_plan_memE exPlanSsn [] [] exA exB =
      .ok (run_plan_rel exPlanSsn [] exA exB) ∧
    run_plan_rel exPlanSsn [] exA exB =
      [[⟨"a0", "b0", 0, 0⟩, ⟨"a1", "b0", 1, 0⟩, ⟨"a2", "b1", 2, 1⟩,
        ⟨"a2", "b2", 2, 2⟩, ⟨"a3", "b3", 3, 3⟩]] :=
  ⟨claim_C1 exPlanSsn exA exB (by decide) (by decide) (by decide),
   by decide⟩

end Beam
